import Mathlib

/-!
Verification development for the slide-image extraction pipeline
(`image_extractor.py`).  The Python source is shallowly embedded:
images become explicit pixel-list structures, PIL primitives are
modelled by their documented semantics, fractional coordinates
(Python floats) are modelled as rationals, and Python integers as
`Int`/`Nat` (Python ints are unbounded, so no wrap-around is needed).
-/

namespace ImageExtractor

/-- One RGBA pixel, channels 0..255 as produced by PIL `getdata`. -/
structure Pixel where
  r : Nat
  g : Nat
  b : Nat
  a : Nat
deriving DecidableEq

/-- PIL image modes that occur in this pipeline: `pdftoppm` pages load as
RGB and the driver promotes them to RGBA (`img.convert('RGBA')`). -/
inductive Mode where
  | RGBA
  | RGB
deriving DecidableEq

/-- A PIL image: mode, size and the flat row-major pixel list
(`img.getdata()`). -/
structure Img where
  mode : Mode
  width : Nat
  height : Nat
  data : List Pixel
deriving DecidableEq

/-- Pixel lookup at column `x`, row `y` (row-major, as PIL stores data);
out-of-range indices read as transparent black, matching PIL's fill
value for regions outside the source in `crop`. -/
def pxAt (img : Img) (x y : Nat) : Pixel :=
  img.data.getD (y * img.width + x) ⟨0, 0, 0, 0⟩

/-- Alpha channel at a coordinate (`img.split()[-1]` of an RGBA image). -/
def alphaAt (img : Img) (x y : Nat) : Nat := (pxAt img x y).a

/-- `img.convert('RGBA')` on an RGB image: same size, alpha set fully
opaque. -/
def convertRGBA (img : Img) : Img :=
  { mode := Mode.RGBA, width := img.width, height := img.height,
    data := img.data.map fun p => ⟨p.r, p.g, p.b, 255⟩ }

/-- `if img.mode != 'RGBA': img = img.convert('RGBA')`. -/
def toRGBA (img : Img) : Img :=
  if img.mode = Mode.RGBA then img else convertRGBA img

/-! ## Background Transparency Filter (`use_libreoffice_method`, the
`getdata`/`putdata` loop at lines 347--357) -/

/-- The per-pixel rule of the loop body: a near-white pixel
(`item[0] > 250 and item[1] > 250 and item[2] > 250`) becomes
`(255, 255, 255, 0)`, anything else is appended unchanged. -/
def bgStep (p : Pixel) : Pixel :=
  if 250 < p.r ∧ 250 < p.g ∧ 250 < p.b then ⟨255, 255, 255, 0⟩ else p

/-- The loop builds `new_data` by appending one output pixel per input
pixel, in order. -/
def bgNewData (data : List Pixel) : List Pixel :=
  data.foldl (fun nd item => nd ++ [bgStep item]) []

/-- `img.putdata(new_data)` after the loop: same image, replaced data. -/
def bgFilter (img : Img) : Img :=
  { img with data := bgNewData img.data }

lemma bgNewData_go (data : List Pixel) (acc : List Pixel) :
    data.foldl (fun nd item => nd ++ [bgStep item]) acc = acc ++ data.map bgStep := by
  induction data generalizing acc with
  | nil => simp
  | cons p rest ih => simp [ih, List.append_assoc]

lemma bgNewData_eq_map (data : List Pixel) : bgNewData data = data.map bgStep := by
  simpa using bgNewData_go data []

/-! ## Resizer (`resize_image`, lines 148--166) -/

/-- Modelled from PIL's documented behaviour of
`img.resize((w, h), LANCZOS)`: the result has exactly the requested
size and the same mode.  The Lanczos-resampled pixel values are
floating-point convolutions with no exact embedding; they are modelled
here by a source-pixel lookup, and no theorem below depends on the
pixel values of a resized image. -/
def resample (img : Img) (w h : Nat) : Img :=
  { mode := img.mode, width := w, height := h,
    data := (List.range (w * h)).map fun i =>
      pxAt img ((i % w) * img.width / w) ((i / w) * img.height / h) }

/-- `resize_image(img, scale_percent)`: identity at `scale_percent >= 100`,
otherwise resample to `int(dim * scale_percent / 100)` (Python `int` of a
nonnegative value is the floor, i.e. `Nat` division). -/
def resize_image (img : Img) (scale_percent : Nat) : Img :=
  if 100 ≤ scale_percent then img
  else resample img (img.width * scale_percent / 100) (img.height * scale_percent / 100)

/-! ## Content Autocropper (`autocrop_image`, lines 113--146) -/

/-- `img.crop((l, u, r, b))`: a new `(r-l) × (b-u)` image whose pixel at
`(dx, dy)` is the source pixel at `(l+dx, u+dy)`, transparent black
outside the source extent (PIL pads with zeros). -/
def crop (img : Img) (l u r b : Nat) : Img :=
  { mode := img.mode, width := r - l, height := b - u,
    data := (List.range (b - u)).flatMap fun dy =>
      (List.range (r - l)).map fun dx =>
        if l + dx < img.width ∧ u + dy < img.height then
          pxAt img (l + dx) (u + dy)
        else ⟨0, 0, 0, 0⟩ }

/-- All in-range coordinates with non-zero alpha, as scanned by
`alpha.getbbox()`. -/
def nzCoords (img : Img) : List (Nat × Nat) :=
  ((List.range img.width).flatMap fun x =>
    (List.range img.height).map fun y => (x, y)).filter
    fun p => alphaAt img p.1 p.2 ≠ 0

/-- Fold computing the least/greatest x and y over a coordinate list. -/
def bboxFold : List (Nat × Nat) → Option (Nat × Nat × Nat × Nat)
  | [] => none
  | (x, y) :: rest =>
    match bboxFold rest with
    | none => some (x, y, x, y)
    | some (l, u, r, b) => some (min x l, min y u, max x r, max y b)

/-- `alpha.getbbox()`: `none` when no pixel has non-zero alpha, else the
minimal `(left, upper, right, lower)` box with exclusive right/lower
bounds containing every non-zero-alpha pixel. -/
def getbbox (img : Img) : Option (Nat × Nat × Nat × Nat) :=
  (bboxFold (nzCoords img)).map fun q => (q.1, q.2.1, q.2.2.1 + 1, q.2.2.2 + 1)

/-- `autocrop_image(img, margin)`: convert to RGBA if needed, take the
alpha bounding box; fully transparent images fall back to
`img.crop((0, 0, 100, 100))`, otherwise the box is expanded by the margin
and clamped (`max(0, ...)` is `Nat` truncated subtraction here since all
quantities are nonnegative) before cropping. -/
def autocrop_image (img : Img) (margin : Nat) : Img :=
  let img := toRGBA img
  match getbbox img with
  | none => crop img 0 0 100 100
  | some (l, u, r, b) =>
    crop img (l - margin) (u - margin) (min img.width (r + margin))
      (min img.height (b + margin))

/-! ## Title Eraser (`remove_title_from_image`, lines 76--111) -/

/-- A fractional bounding box `(x_rel, y_rel, width_rel, height_rel)`;
Python floats are modelled as rationals. -/
abbrev BBoxQ := ℚ × ℚ × ℚ × ℚ

/-- Python `int()` on a float/rational: truncation toward zero. -/
def pyTrunc (q : ℚ) : Int :=
  if q < 0 then -(Int.floor (-q)) else Int.floor q

/-- The pixel rectangle actually filled: margin-expanded conversion of the
relative box followed by the source's clamping
(`x = max(0, x)`, `width = min(width, img_width - x)` and likewise for
`y`/`height`), returned as `(x, y, width, height)`. -/
def titleRect (img : Img) (bbox : BBoxQ) (margin : Int) : Int × Int × Int × Int :=
  let x0 := pyTrunc (bbox.1 * img.width) - margin
  let y0 := pyTrunc (bbox.2.1 * img.height) - margin
  let w0 := pyTrunc (bbox.2.2.1 * img.width) + 2 * margin
  let h0 := pyTrunc (bbox.2.2.2 * img.height) + 2 * margin
  let x := max 0 x0
  let y := max 0 y0
  (x, y, min w0 ((img.width : Int) - x), min h0 ((img.height : Int) - y))

/-- One pass of `ImageDraw.rectangle([x0, y0, x1, y1], fill)` over the
flat data, keeping the running flat index `i`: PIL fills every pixel
whose coordinates satisfy `x0 ≤ x ≤ x1` and `y0 ≤ y ≤ y1` (both corners
inclusive), silently clipping to the pixel grid. -/
def drawRectAux (w : Nat) (x0 y0 x1 y1 : Int) : Nat → List Pixel → List Pixel
  | _, [] => []
  | i, p :: rest =>
    (if x0 ≤ (Int.ofNat (i % w)) ∧ (Int.ofNat (i % w)) ≤ x1 ∧
        y0 ≤ (Int.ofNat (i / w)) ∧ (Int.ofNat (i / w)) ≤ y1 then
      (⟨255, 255, 255, 0⟩ : Pixel)
    else p) :: drawRectAux w x0 y0 x1 y1 (i + 1) rest

/-- `draw.rectangle([x, y, x + width, y + height], fill=(255,255,255,0))`. -/
def drawRect (img : Img) (x0 y0 x1 y1 : Int) : Img :=
  { img with data := drawRectAux img.width x0 y0 x1 y1 0 img.data }

/-- `remove_title_from_image(img, bbox, margin)`: no-op on a `None` box,
otherwise clamp the margin-expanded pixel rectangle, promote to RGBA if
needed, and fill it with transparent white. -/
def remove_title_from_image (img : Img) (bbox : Option BBoxQ) (margin : Int) : Img :=
  match bbox with
  | none => img
  | some bb =>
    let q := titleRect img bb margin
    let img := toRGBA img
    drawRect img q.1 q.2.1 (q.1 + q.2.2.1) (q.2.1 + q.2.2.2)

/-! ## Per-slide pipeline of the driver (`use_libreoffice_method`,
lines 343--369) -/

/-- The driver options that reach the per-image stages. -/
structure Opts where
  removeTitle : Bool
  autocrop : Bool
  cropMargin : Nat
  scalePercent : Nat

/-- Lines 343--369: promote to RGBA, background filter, optional title
erase (margin 15, only when a bounding box was captured), optional
autocrop, optional downscale. -/
def processSlide (img : Img) (title : Option String) (bbox : Option BBoxQ)
    (o : Opts) : Img :=
  let img := toRGBA img
  let img := bgFilter img
  let img :=
    if o.removeTitle then
      match bbox with
      | some bb => remove_title_from_image img (some bb) 15
      | none => img
    else img
  let img := if o.autocrop then autocrop_image img o.cropMargin else img
  if o.scalePercent < 100 then resize_image img o.scalePercent else img

/-! ## Filename Sanitizer (`sanitize_filename`, lines 17--28) -/

/-- Whitespace as recognised by Python's no-argument `str.split` and
`str.strip` (restricted to the ASCII whitespace PIL titles contain). -/
def isWs (c : Char) : Bool := c.isWhitespace

/-- Membership in the removed set `'<>:"/\\|?*'`. -/
def isInvalidChar (c : Char) : Bool :=
  match c with
  | '<' | '>' | ':' | '"' | '/' | '\\' | '|' | '?' | '*' => true
  | _ => false

/-- The loop `for char in invalid_chars: text = text.replace(char, '')`:
replacing each listed character by the empty string removes exactly the
listed characters. -/
def removeInvalidL (l : List Char) : List Char :=
  l.filter fun c => !(isInvalidChar c)

/-- Python `text.split()`: maximal runs of non-whitespace characters, in
order, with no empty pieces. -/
def wordsL : List Char → List (List Char)
  | [] => []
  | c :: cs =>
    let rest := wordsL cs
    if isWs c then rest
    else
      match cs with
      | [] => [[c]]
      | d :: _ =>
        if isWs d then [c] :: rest
        else
          match rest with
          | [] => [[c]]
          | w :: ws => (c :: w) :: ws

/-- Python `' '.join(pieces)`. -/
def joinSpaceL : List (List Char) → List Char
  | [] => []
  | [w] => w
  | w :: ws => w ++ ' ' :: joinSpaceL ws

/-- Python `text.strip()`: drop whitespace from both ends. -/
def trimWsL (l : List Char) : List Char :=
  ((l.dropWhile isWs).reverse.dropWhile isWs).reverse

/-- `sanitize_filename` on the character list: remove invalid characters,
collapse whitespace runs (`' '.join(text.split())`), truncate to 100
characters when longer, strip. -/
def sanitizeL (l : List Char) : List Char :=
  let t1 := removeInvalidL l
  let t2 := joinSpaceL (wordsL t1)
  let t3 := if 100 < t2.length then t2.take 100 else t2
  trimWsL t3

/-- `sanitize_filename(text)`. -/
def sanitize_filename (s : String) : String := ⟨sanitizeL s.data⟩

/-! ## Title Locator (`extract_slide_title_and_bbox`, lines 30--74) -/

/-- A slide shape as the locator sees it: whether it exposes a `text`
attribute, the text, and its EMU geometry. -/
structure Shape where
  hasText : Bool
  text : String
  left : Int
  top : Int
  width : Int
  height : Int

/-- A slide together with the presentation page size (EMU). -/
structure Slide where
  slideWidth : Int
  slideHeight : Int
  titleShape : Option Shape
  shapes : List Shape

/-- Python `str.strip()` on a `String`. -/
def pyStrip (s : String) : String := ⟨trimWsL s.data⟩

/-- A shape's box in coordinates relative to the slide size (Python true
division of ints, i.e. exact rational division). -/
def relBBox (slide : Slide) (sh : Shape) : BBoxQ :=
  ((sh.left : ℚ) / (slide.slideWidth : ℚ),
   (sh.top : ℚ) / (slide.slideHeight : ℚ),
   (sh.width : ℚ) / (slide.slideWidth : ℚ),
   (sh.height : ℚ) / (slide.slideHeight : ℚ))

/-- The fallback scan over `slide.shapes`: the first shape having a
`text` attribute with non-empty stripped text. -/
def findFallback (slide : Slide) : List Shape → Option String × Option BBoxQ
  | [] => (none, none)
  | sh :: rest =>
    if sh.hasText ∧ pyStrip sh.text ≠ "" then
      (some (pyStrip sh.text), some (relBBox slide sh))
    else findFallback slide rest

/-- `extract_slide_title_and_bbox(slide)`: prefer the title placeholder
(whatever its text, `python-pptx` shape objects are truthy), else scan
for the first shape with non-empty stripped text, else `(None, None)`. -/
def extract_slide_title_and_bbox (slide : Slide) : Option String × Option BBoxQ :=
  match slide.titleShape with
  | some ts => (some ts.text, some (relBBox slide ts))
  | none => findFallback slide slide.shapes

/-! ## Output naming (`use_libreoffice_method`, lines 309--328) -/

/-- One entry of `slides_info`. -/
abbrev SlideInfo := Option String × Option BBoxQ

/-- Python truthiness of the extracted title: `if title:` is false for
`None` and for the empty string. -/
def truthyTitle : Option String → Bool
  | none => false
  | some t => !(t == "")

/-- The naming loop: `name_counts` is the `dict` (total map defaulting to
an absent key via count 0, `s ∈ name_counts` iff `counts s ≠ 0`), `idx`
the 1-based `enumerate` counter.  First occurrence of a sanitized title
gets `<title>.png`, the n-th repeat `<title>_<n>.png`; falsy titles get
`Slide_<idx>.png`. -/
def namesGo : List SlideInfo → Nat → (String → Nat) → List String
  | [], _, _ => []
  | info :: rest, idx, counts =>
    match info.1 with
    | some t =>
      if t ≠ "" then
        let s := sanitize_filename t
        let name :=
          if counts s ≠ 0 then s ++ "_" ++ toString (counts s + 1) ++ ".png"
          else s ++ ".png"
        name :: namesGo rest (idx + 1) (fun k => if k = s then counts s + 1 else counts k)
      else ("Slide_" ++ toString idx ++ ".png") :: namesGo rest (idx + 1) counts
    | none => ("Slide_" ++ toString idx ++ ".png") :: namesGo rest (idx + 1) counts

/-- Output file names for one run, in slide order. -/
def outputNames (infos : List SlideInfo) : List String :=
  namesGo infos 1 (fun _ => 0)

/-- Does a slide entry carry a truthy title that sanitizes to `S`? -/
def matchesName (S : String) (info : SlideInfo) : Bool :=
  match info.1 with
  | some t => (!(t == "")) && (sanitize_filename t == S)
  | none => false

/-! ## Run-level control flow (`pptx_to_png_transparent`,
`use_libreoffice_method` and the `__main__` block) -/

/-- The Python exception classes observable in this program's flow. -/
inductive Exc where
  | fileNotFound
  | calledProcessError
  | valueError
  | osError
  | generic
deriving DecidableEq

/-- Outcome of one `subprocess.run(..., check=True)` call. -/
inductive SubpOutcome where
  | ok
  | cpe
  | fnf
deriving DecidableEq

/-- The environment a run interacts with: each external effect of the
script recorded as the outcome the Python call would have.  `Except`
fields distinguish a normal result from a raised exception. -/
structure Env where
  pathExists : Bool
  makedirs : Except Exc Unit
  listdir : Except Exc (List String)
  loadAndExtract : Except Exc (List SlideInfo)
  hasLibreoffice : Bool
  sofficeRun : SubpOutcome
  libreofficeRun : SubpOutcome
  pdfExists : Bool
  pdftoppmRun : SubpOutcome
  tmpFiles : List String
  perImageLoop : Except Exc Unit

/-- Lines 279--405: after the PPTX→PDF conversion succeeded.  A missing
PDF or missing `pdftoppm` prints and returns; a `CalledProcessError`
from `pdftoppm` is not caught locally (only `FileNotFoundError` is);
an empty PNG listing prints and returns; otherwise the processing loop
runs and any exception it raises propagates to the caller. -/
def afterPdfFlow (env : Env) : Except Exc Unit :=
  if !env.pdfExists then Except.ok ()
  else
    match env.pdftoppmRun with
    | SubpOutcome.fnf => Except.ok ()
    | SubpOutcome.cpe => Except.error Exc.calledProcessError
    | SubpOutcome.ok =>
      if (env.tmpFiles.filter fun f => f.endsWith ".png") = [] then Except.ok ()
      else env.perImageLoop

/-- Lines 258--277: the first `soffice` attempt.  `CalledProcessError`
is caught (print, return); `FileNotFoundError` triggers the
`libreoffice` fallback, whose own exceptions are raised from inside the
`except` handler and therefore propagate. -/
def use_libreoffice_flow (env : Env) : Except Exc Unit :=
  match env.sofficeRun with
  | SubpOutcome.ok => afterPdfFlow env
  | SubpOutcome.cpe => Except.ok ()
  | SubpOutcome.fnf =>
    match env.libreofficeRun with
    | SubpOutcome.ok => afterPdfFlow env
    | SubpOutcome.cpe => Except.error Exc.calledProcessError
    | SubpOutcome.fnf => Except.error Exc.fileNotFound

/-- `pptx_to_png_transparent` (lines 187--252): a missing input prints
and returns; `os.makedirs` and `os.listdir` run before the `try` block,
so their exceptions propagate; everything from `Presentation(...)`
through `use_libreoffice_method` is inside `try ... except Exception`,
which prints a diagnostic and returns normally. -/
def pptx_flow (env : Env) : Except Exc Unit :=
  if !env.pathExists then Except.ok ()
  else
    match env.makedirs with
    | Except.error e => Except.error e
    | Except.ok _ =>
      match env.listdir with
      | Except.error e => Except.error e
      | Except.ok _ =>
        match
          (match env.loadAndExtract with
           | Except.error e => Except.error e
           | Except.ok _ =>
             if env.hasLibreoffice then use_libreoffice_flow env else Except.ok ())
        with
        | Except.ok _ => Except.ok ()
        | Except.error _ => Except.ok ()

/-- Options accumulated by the `__main__` argument loop. -/
structure CliOpts where
  keepTitle : Bool
  noCrop : Bool
  cropMargin : Int
  scale : Int
  resolution : Int

/-- The defaults set before the loop over `sys.argv[3:]`. -/
def defaultCliOpts : CliOpts :=
  { keepTitle := false, noCrop := false, cropMargin := 20, scale := 100,
    resolution := 300 }

/-- Digit-string value (used by both `int()` and `isdigit` paths). -/
def digitsToNat (l : List Char) : Nat :=
  l.foldl (fun n c => n * 10 + (c.toNat - '0'.toNat)) 0

/-- Python `int(s)` on a string: optional surrounding whitespace, an
optional sign, then decimal digits; anything else raises `ValueError`.
(Underscore digit grouping, accepted by Python, is not modelled; no
claim depends on it.) -/
def pyIntParse (s : String) : Option Int :=
  match trimWsL s.data with
  | [] => none
  | '+' :: rest =>
    if !rest.isEmpty && rest.all Char.isDigit then some (digitsToNat rest) else none
  | '-' :: rest =>
    if !rest.isEmpty && rest.all Char.isDigit then some (-(digitsToNat rest : Int)) else none
  | l =>
    if l.all Char.isDigit then some (digitsToNat l) else none

/-- Python `s.isdigit()` for the ASCII arguments at hand. -/
def pyIsDigit (s : String) : Bool :=
  !s.isEmpty && s.data.all Char.isDigit

/-- The value `arg.split('=')[1]`: the text between the first and second
`'='`. -/
def afterEq (arg : String) : String :=
  (arg.splitOn "=").getD 1 ""

/-- The option loop over `sys.argv[3:]` (lines 447--457).  A
`--crop-margin=`/`--scale=` value that `int()` rejects raises
`ValueError`, which nothing catches. -/
def parseOptLoop : List String → CliOpts → Except Exc CliOpts
  | [], o => Except.ok o
  | arg :: rest, o =>
    if arg = "--keep-title" then parseOptLoop rest { o with keepTitle := true }
    else if arg = "--no-crop" then parseOptLoop rest { o with noCrop := true }
    else if arg.startsWith "--crop-margin=" then
      match pyIntParse (afterEq arg) with
      | some n => parseOptLoop rest { o with cropMargin := n }
      | none => Except.error Exc.valueError
    else if arg.startsWith "--scale=" then
      match pyIntParse (afterEq arg) with
      | some n => parseOptLoop rest { o with scale := n }
      | none => Except.error Exc.valueError
    else if pyIsDigit arg then
      parseOptLoop rest { o with resolution := (digitsToNat arg.data : Int) }
    else parseOptLoop rest o

/-- How one invocation ends. -/
inductive MainOutcome where
  | usageExit
  | finished
  | crashed (e : Exc)
deriving DecidableEq

/-- The `__main__` block: fewer than two argv entries prints usage and
calls `sys.exit(1)`; otherwise the option loop runs and then
`pptx_to_png_transparent`; an uncaught exception ends the process with a
traceback. -/
def image_extractor_main (argv : List String) (env : Env) : MainOutcome :=
  if argv.length < 2 then MainOutcome.usageExit
  else
    match parseOptLoop (argv.drop 3) defaultCliOpts with
    | Except.error e => MainOutcome.crashed e
    | Except.ok _ =>
      match pptx_flow env with
      | Except.ok _ => MainOutcome.finished
      | Except.error e => MainOutcome.crashed e

/-- Process exit status: `sys.exit(1)` gives 1, a normal return gives 0,
an uncaught exception makes the interpreter exit with status 1. -/
def exitCode : MainOutcome → Nat
  | MainOutcome.usageExit => 1
  | MainOutcome.finished => 0
  | MainOutcome.crashed _ => 1

/-! ## Statement helpers and concrete instances -/

/-- Output name as a function of the sanitized title `S` and the number
`p` of earlier slides of the run whose truthy title sanitizes to `S`:
`S.png` for the first occurrence, `S_(p+1).png` afterwards. -/
def nameFor (S : String) (p : Nat) : String :=
  if p = 0 then S ++ ".png" else S ++ "_" ++ toString (p + 1) ++ ".png"

/-- The spec's description of the tight content box: a rectangle
`[l, r) × [u, b)` containing every non-zero-alpha pixel and attained on
all four sides. -/
def IsMinBBox (img : Img) (l u r b : Nat) : Prop :=
  (∀ x y, x < img.width → y < img.height → alphaAt img x y ≠ 0 →
    l ≤ x ∧ x < r ∧ u ≤ y ∧ y < b) ∧
  (∃ y, l < img.width ∧ y < img.height ∧ alphaAt img l y ≠ 0) ∧
  (∃ y, r - 1 < img.width ∧ y < img.height ∧ alphaAt img (r - 1) y ≠ 0) ∧
  (∃ x, x < img.width ∧ u < img.height ∧ alphaAt img x u ≠ 0) ∧
  (∃ x, x < img.width ∧ b - 1 < img.height ∧ alphaAt img x (b - 1) ≠ 0)

/-- A word as produced by Python `str.split()`: non-empty and free of
whitespace. -/
def GoodWord (w : List Char) : Prop := w ≠ [] ∧ ∀ c ∈ w, isWs c = false

/-- All pieces of a split are words. -/
def GoodWords (ws : List (List Char)) : Prop := ∀ w ∈ ws, GoodWord w

/-- A 2×1 RGBA image with one near-white and one dark pixel. -/
def imgNearWhite : Img :=
  ⟨Mode.RGBA, 2, 1, [⟨251, 251, 251, 7⟩, ⟨10, 10, 10, 42⟩]⟩

/-- A 4×2 RGBA image for the resize witness. -/
def imgResize : Img :=
  ⟨Mode.RGBA, 4, 2, List.replicate 8 ⟨1, 2, 3, 4⟩⟩

/-- A 3×2 RGBA image whose only non-transparent pixel sits at `(1, 0)`. -/
def imgOnePixel : Img :=
  ⟨Mode.RGBA, 3, 2,
    [⟨0, 0, 0, 0⟩, ⟨9, 9, 9, 200⟩, ⟨0, 0, 0, 0⟩,
     ⟨0, 0, 0, 0⟩, ⟨0, 0, 0, 0⟩, ⟨0, 0, 0, 0⟩]⟩

/-- A fully transparent 3×2 RGBA image. -/
def imgTransparent : Img :=
  ⟨Mode.RGBA, 3, 2, List.replicate 6 ⟨0, 0, 0, 0⟩⟩

/-- A 2×2 fully opaque RGBA image. -/
def imgOpaque : Img :=
  ⟨Mode.RGBA, 2, 2, List.replicate 4 ⟨0, 0, 0, 255⟩⟩

/-- A degenerate relative bounding box of zero relative size at the
origin. -/
def bbZero : BBoxQ := ((0 : ℚ), (0 : ℚ), (0 : ℚ), (0 : ℚ))

/-- Two slides both titled `"Intro"`. -/
def introInfos : List SlideInfo := [(some "Intro", none), (some "Intro", none)]

/-- A shape without a `text` attribute. -/
def shapeNoText : Shape := ⟨false, "ignored", 0, 0, 914400, 457200⟩

/-- A slide with no title placeholder and no text-bearing shape. -/
def slideUntitled : Slide := ⟨9144000, 6858000, none, [shapeNoText]⟩

/-- A title placeholder holding empty text. -/
def emptyTitleShape : Shape := ⟨true, "", 91440, 45720, 914400, 457200⟩

/-- A slide whose title placeholder exists but is empty. -/
def slideEmptyTitle : Slide := ⟨9144000, 6858000, some emptyTitleShape, []⟩

/-- An environment in which every external step succeeds. -/
def envBenign : Env :=
  { pathExists := true, makedirs := Except.ok (), listdir := Except.ok [],
    loadAndExtract := Except.ok [], hasLibreoffice := true,
    sofficeRun := SubpOutcome.ok, libreofficeRun := SubpOutcome.ok,
    pdfExists := true, pdftoppmRun := SubpOutcome.ok, tmpFiles := [],
    perImageLoop := Except.ok () }

/-- The benign environment except that `os.makedirs(output_dir)` raises
(e.g. the output path already exists as a regular file). -/
def envBadMakedirs : Env :=
  { envBenign with makedirs := Except.error Exc.osError }

/-! ## Theorems -/

lemma toRGBA_of_rgba {img : Img} (h : img.mode = Mode.RGBA) : toRGBA img = img := by
  simp [toRGBA, h]

/-- **C1** For every RGBA image, the Background Transparency Filter keeps
the mode and size and maps the pixel at each position to
`(255, 255, 255, 0)` exactly when its red, green and blue values are all
strictly above 250, leaving every other pixel (alpha included)
unchanged. -/
theorem background_filter_pointwise (img : Img) (hmode : img.mode = Mode.RGBA) :
    ((bgFilter img).mode = img.mode ∧ (bgFilter img).width = img.width ∧
      (bgFilter img).height = img.height) ∧
    ∀ i : Nat, (bgFilter img).data.get? i =
      (img.data.get? i).map fun p =>
        if 250 < p.r ∧ 250 < p.g ∧ 250 < p.b then (⟨255, 255, 255, 0⟩ : Pixel)
        else p := by
  refine ⟨⟨rfl, rfl, rfl⟩, fun i => ?_⟩
  show (bgNewData img.data).get? i = _
  rw [bgNewData_eq_map, List.get?_map]
  rfl

/-- Witness for C1 on a concrete image: the near-white pixel is blanked,
the dark one untouched. -/
theorem background_filter_pointwise_witness :
    imgNearWhite.mode = Mode.RGBA ∧
    (bgFilter imgNearWhite).data.get? 0 = some ⟨255, 255, 255, 0⟩ ∧
    (bgFilter imgNearWhite).data.get? 1 = some ⟨10, 10, 10, 42⟩ := by
  refine ⟨rfl, ?_, ?_⟩
  · rw [(background_filter_pointwise imgNearWhite rfl).2 0]; decide
  · rw [(background_filter_pointwise imgNearWhite rfl).2 1]; decide

/-- **C4** The Resizer returns its input unchanged at any scale ≥ 100;
below 100 the output dimensions are the floors of
`dimension * scale / 100`; in every case no dimension grows. -/
theorem resize_never_upscales (img : Img) (s : Nat) :
    (100 ≤ s → resize_image img s = img) ∧
    (s < 100 → (resize_image img s).width = img.width * s / 100 ∧
      (resize_image img s).height = img.height * s / 100) ∧
    (resize_image img s).width ≤ img.width ∧
    (resize_image img s).height ≤ img.height := by
  by_cases h : 100 ≤ s
  · refine ⟨fun _ => by simp [resize_image, h], fun hlt => absurd h (by omega), ?_, ?_⟩ <;>
      simp [resize_image, h]
  · have hdw : img.width * s / 100 ≤ img.width := by
      calc img.width * s / 100 ≤ img.width * 100 / 100 :=
              Nat.div_le_div_right (Nat.mul_le_mul_left _ (by omega))
        _ = img.width := Nat.mul_div_cancel img.width (by omega)
    have hdh : img.height * s / 100 ≤ img.height := by
      calc img.height * s / 100 ≤ img.height * 100 / 100 :=
              Nat.div_le_div_right (Nat.mul_le_mul_left _ (by omega))
        _ = img.height := Nat.mul_div_cancel img.height (by omega)
    refine ⟨fun hge => absurd hge h, fun _ => ⟨?_, ?_⟩, ?_, ?_⟩ <;>
      simp [resize_image, h, resample, hdw, hdh]

/-- Witness for C4: scale 120 is the identity, scale 50 halves a 4×2
image. -/
theorem resize_never_upscales_witness :
    resize_image imgResize 120 = imgResize ∧
    (resize_image imgResize 50).width = imgResize.width * 50 / 100 ∧
    (resize_image imgResize 50).height = imgResize.height * 50 / 100 :=
  ⟨(resize_never_upscales imgResize 120).1 (by omega),
   ((resize_never_upscales imgResize 50).2.1 (by omega)).1,
   ((resize_never_upscales imgResize 50).2.1 (by omega)).2⟩

lemma toRGBA_mode (img : Img) : (toRGBA img).mode = Mode.RGBA := by
  by_cases h : img.mode = Mode.RGBA <;> simp [toRGBA, convertRGBA, h]

lemma bgFilter_mode (img : Img) : (bgFilter img).mode = img.mode := rfl

lemma crop_mode (img : Img) (l u r b : Nat) : (crop img l u r b).mode = img.mode := rfl

lemma drawRect_mode (img : Img) (x0 y0 x1 y1 : Int) :
    (drawRect img x0 y0 x1 y1).mode = img.mode := rfl

lemma remove_title_mode_some (img : Img) (bb : BBoxQ) (mg : Int) :
    (remove_title_from_image img (some bb) mg).mode = Mode.RGBA := by
  simp [remove_title_from_image, drawRect_mode, toRGBA_mode]

lemma autocrop_mode (img : Img) (m : Nat) :
    (autocrop_image img m).mode = Mode.RGBA := by
  unfold autocrop_image
  rcases h : getbbox (toRGBA img) with _ | ⟨l, u, r, b⟩ <;>
    simp [h, crop_mode, toRGBA_mode]

lemma resize_mode (img : Img) (s : Nat) : (resize_image img s).mode = img.mode := by
  unfold resize_image
  split <;> rfl

lemma processSlide_mode (img : Img) (title : Option String) (bbox : Option BBoxQ)
    (o : Opts) : (processSlide img title bbox o).mode = Mode.RGBA := by
  obtain ⟨rt, ac, cm, sp⟩ := o
  cases rt <;> cases ac <;> rcases bbox with _ | bb <;> by_cases hs : sp < 100 <;>
    simp [processSlide, hs, bgFilter_mode, toRGBA_mode, remove_title_mode_some,
      autocrop_mode, resize_mode]

/-- **C8** Every image the pipeline writes is RGBA: the driver's
per-slide processing yields a `Mode.RGBA` image for every input image,
title, bounding box and option set, and each individual stage keeps an
RGBA image RGBA. -/
theorem pipeline_always_rgba (img i : Img) (title : Option String)
    (bbox bbox2 : Option BBoxQ) (o : Opts) (mg : Int) (m s : Nat) :
    (processSlide img title bbox o).mode = Mode.RGBA ∧
    (i.mode = Mode.RGBA →
      (bgFilter i).mode = Mode.RGBA ∧
      (remove_title_from_image i bbox2 mg).mode = Mode.RGBA ∧
      (autocrop_image i m).mode = Mode.RGBA ∧
      (resize_image i s).mode = Mode.RGBA) := by
  refine ⟨processSlide_mode img title bbox o, fun hm => ⟨?_, ?_, autocrop_mode i m, ?_⟩⟩
  · rw [bgFilter_mode]; exact hm
  · rcases bbox2 with _ | bb
    · exact hm
    · exact remove_title_mode_some i bb mg
  · rw [resize_mode]; exact hm

/-- Witness for C8 at concrete inputs: a processed RGB page comes out
RGBA, and each stage keeps a concrete RGBA image RGBA. -/
theorem pipeline_always_rgba_witness :
    (processSlide ⟨Mode.RGB, 2, 1, [⟨255, 255, 255, 0⟩, ⟨3, 4, 5, 0⟩]⟩
        (some "t") (some bbZero) ⟨true, true, 20, 50⟩).mode = Mode.RGBA ∧
    (bgFilter imgOpaque).mode = Mode.RGBA ∧
    (remove_title_from_image imgOpaque (some bbZero) 15).mode = Mode.RGBA ∧
    (autocrop_image imgOpaque 20).mode = Mode.RGBA ∧
    (resize_image imgOpaque 50).mode = Mode.RGBA := by
  have h := pipeline_always_rgba
    ⟨Mode.RGB, 2, 1, [⟨255, 255, 255, 0⟩, ⟨3, 4, 5, 0⟩]⟩ imgOpaque
    (some "t") (some bbZero) (some bbZero) ⟨true, true, 20, 50⟩ 15 20 50
  exact ⟨h.1, (h.2 rfl).1, (h.2 rfl).2.1, (h.2 rfl).2.2.1, (h.2 rfl).2.2.2⟩

lemma namesGo_get_truthy (infos : List SlideInfo) :
    ∀ (j idx : Nat) (c : String → Nat) (t : String) (b : Option BBoxQ),
      infos.get? j = some (some t, b) → t ≠ "" →
      (namesGo infos idx c).get? j =
        some (nameFor (sanitize_filename t)
          (c (sanitize_filename t) +
            ((infos.take j).filter (matchesName (sanitize_filename t))).length)) := by
  induction infos with
  | nil => intro j idx c t b hj ht; simp at hj
  | cons info rest ih =>
    intro j idx c t b hj ht
    obtain ⟨title, bb⟩ := info
    cases j with
    | zero =>
      have hj2 : title = some t ∧ bb = b := by simpa [Prod.ext_iff] using hj
      obtain ⟨h1, h2⟩ := hj2
      subst h1
      by_cases hc : c (sanitize_filename t) = 0 <;>
        simp [namesGo, ht, nameFor, hc]
    | succ j' =>
      have step : ∀ (c2 : String → Nat),
          (c2 (sanitize_filename t) +
              ((rest.take j').filter (matchesName (sanitize_filename t))).length =
            c (sanitize_filename t) +
              (((( (title, bb) : SlideInfo) :: rest).take (j' + 1)).filter
                (matchesName (sanitize_filename t))).length) →
          (namesGo rest (idx + 1) c2).get? j' =
            some (nameFor (sanitize_filename t)
              (c (sanitize_filename t) +
                ((((title, bb) :: rest : List SlideInfo).take (j' + 1)).filter
                  (matchesName (sanitize_filename t))).length)) := by
        intro c2 hcnt
        rw [ih j' (idx + 1) c2 t b (by simpa using hj) ht, hcnt]
      rcases title with _ | t'
      · simp only [namesGo, List.get?_cons_succ]
        apply step
        simp [matchesName]
      · by_cases ht' : t' = ""
        · subst ht'
          simp only [namesGo, ne_eq, not_true_eq_false, if_false, List.get?_cons_succ]
          apply step
          simp [matchesName]
        · simp only [namesGo, ne_eq, ht', not_false_eq_true, if_true, List.get?_cons_succ]
          apply step
          by_cases hS : sanitize_filename t = sanitize_filename t'
          · simp [matchesName, ht', hS, List.filter_cons]
            omega
          · have : (sanitize_filename t' == sanitize_filename t) = false := by
              simp [Ne.symm hS]
            simp [matchesName, ht', hS, List.filter_cons, this, Ne.symm hS]

lemma namesGo_get_falsy (infos : List SlideInfo) :
    ∀ (j idx : Nat) (c : String → Nat) (info : SlideInfo),
      infos.get? j = some info → truthyTitle info.1 = false →
      (namesGo infos idx c).get? j =
        some ("Slide_" ++ toString (idx + j) ++ ".png") := by
  induction infos with
  | nil => intro j idx c info hj htr; simp at hj
  | cons head rest ih =>
    intro j idx c info hj htr
    obtain ⟨title, bb⟩ := head
    cases j with
    | zero =>
      simp only [List.get?_cons_zero, Option.some.injEq] at hj
      subst hj
      rcases title with _ | t
      · simp [namesGo]
      · have ht : t = "" := by
          simpa [truthyTitle] using htr
        subst ht
        simp [namesGo]
    | succ j' =>
      have harith : idx + 1 + j' = idx + (j' + 1) := by omega
      rcases title with _ | t
      · simp only [namesGo, List.get?_cons_succ]
        rw [ih j' (idx + 1) c info (by simpa using hj) htr, harith]
      · by_cases ht' : t = ""
        · subst ht'
          simp only [namesGo, ne_eq, not_true_eq_false, if_false, List.get?_cons_succ]
          rw [ih j' (idx + 1) c info (by simpa using hj) htr, harith]
        · simp only [namesGo, ne_eq, ht', not_false_eq_true, if_true, List.get?_cons_succ]
          rw [ih j' (idx + 1) _ info (by simpa using hj) htr, harith]

/-- **C5** Within one run, a slide at position `j` whose truthy title
sanitizes to `S` is written as `nameFor S p` where `p` counts the
earlier slides whose truthy titles sanitize to the same `S`: `S.png`
for the first occurrence and `S_k.png` (`k = p + 1 = 2, 3, ...`) for the
k-th. -/
theorem duplicate_title_naming (infos : List SlideInfo) (j : Nat) (t : String)
    (b : Option BBoxQ) (hj : infos.get? j = some (some t, b)) (ht : t ≠ "") :
    (outputNames infos).get? j =
      some (nameFor (sanitize_filename t)
        (((infos.take j).filter (matchesName (sanitize_filename t))).length)) := by
  simpa using namesGo_get_truthy infos j 1 (fun _ => 0) t b hj ht

/-- Witness for C5: two slides titled `"Intro"` give `Intro.png` then
`Intro_2.png`. -/
theorem duplicate_title_naming_witness :
    (outputNames introInfos).get? 0 = some "Intro.png" ∧
    (outputNames introInfos).get? 1 = some "Intro_2.png" := by
  constructor
  · rw [duplicate_title_naming introInfos 0 "Intro" none rfl (by decide)]
    decide
  · rw [duplicate_title_naming introInfos 1 "Intro" none rfl (by decide)]
    decide

/-- **C9** A slide with no title placeholder and no text-bearing shape
yields `(none, none)` from the Title Locator, and a slide entry with no
title is written as `Slide_<N>.png`, `N` its 1-based position. -/
theorem untitled_slide_behavior :
    (∀ slide : Slide, slide.titleShape = none →
      (∀ sh ∈ slide.shapes, ¬(sh.hasText = true ∧ pyStrip sh.text ≠ "")) →
      extract_slide_title_and_bbox slide = (none, none)) ∧
    (∀ (infos : List SlideInfo) (j : Nat) (b : Option BBoxQ),
      infos.get? j = some (none, b) →
      (outputNames infos).get? j = some ("Slide_" ++ toString (j + 1) ++ ".png")) := by
  constructor
  · intro slide hts hsh
    unfold extract_slide_title_and_bbox
    rw [hts]
    have : ∀ l : List Shape, (∀ sh ∈ l, ¬(sh.hasText = true ∧ pyStrip sh.text ≠ "")) →
        findFallback slide l = (none, none) := by
      intro l
      induction l with
      | nil => intro _; rfl
      | cons sh rest ihl =>
        intro hl
        unfold findFallback
        rw [if_neg (hl sh (by simp))]
        exact ihl fun s hs => hl s (by simp [hs])
    exact this slide.shapes hsh
  · intro infos j b hj
    have := namesGo_get_falsy infos j 1 (fun _ => 0) (none, b) hj (by rfl)
    simpa [Nat.add_comm] using this

/-- Witness for C9 on a concrete slide and run. -/
theorem untitled_slide_behavior_witness :
    extract_slide_title_and_bbox slideUntitled = (none, none) ∧
    (outputNames [(none, none)]).get? 0 = some "Slide_1.png" := by
  constructor
  · exact untitled_slide_behavior.1 slideUntitled rfl (by decide)
  · rw [untitled_slide_behavior.2 [(none, none)] 0 none rfl]
    decide

/-- **C10** A title placeholder with empty text is returned as the empty
title together with the placeholder's box (no fallback scan); the driver
names such a slide `Slide_<N>.png` as if untitled, yet with title
removal enabled it still applies the Title Eraser, because erasure is
keyed on the bounding box alone. -/
theorem empty_title_placeholder (slide : Slide) (ts : Shape)
    (hts : slide.titleShape = some ts) (htxt : ts.text = "") :
    extract_slide_title_and_bbox slide = (some "", some (relBBox slide ts)) ∧
    (∀ (infos : List SlideInfo) (j : Nat) (b : Option BBoxQ),
      infos.get? j = some (some "", b) →
      (outputNames infos).get? j = some ("Slide_" ++ toString (j + 1) ++ ".png")) ∧
    (∀ (img : Img) (bb : BBoxQ) (cm : Nat),
      processSlide img (some "") (some bb) ⟨true, false, cm, 100⟩ =
        remove_title_from_image (bgFilter (toRGBA img)) (some bb) 15) := by
  refine ⟨?_, ?_, ?_⟩
  · simp [extract_slide_title_and_bbox, hts, htxt]
  · intro infos j b hj
    have := namesGo_get_falsy infos j 1 (fun _ => 0) (some "", b) hj (by rfl)
    simpa [Nat.add_comm] using this
  · intro img bb cm
    simp [processSlide]

/-- Witness for C10 on a concrete empty-titled slide, run and image. -/
theorem empty_title_placeholder_witness :
    extract_slide_title_and_bbox slideEmptyTitle =
      (some "", some (relBBox slideEmptyTitle emptyTitleShape)) ∧
    (outputNames [(some "", none)]).get? 0 = some "Slide_1.png" ∧
    processSlide imgOpaque (some "") (some bbZero) ⟨true, false, 7, 100⟩ =
      remove_title_from_image (bgFilter (toRGBA imgOpaque)) (some bbZero) 15 := by
  obtain ⟨h1, h2, h3⟩ := empty_title_placeholder slideEmptyTitle emptyTitleShape rfl rfl
  refine ⟨h1, ?_, h3 imgOpaque bbZero 7⟩
  rw [h2 [(some "", none)] 0 none rfl]
  decide

lemma bboxFold_eq_none_iff (xs : List (Nat × Nat)) : bboxFold xs = none ↔ xs = [] := by
  cases xs with
  | nil => simp [bboxFold]
  | cons p rest =>
    obtain ⟨x, y⟩ := p
    constructor
    · intro h
      unfold bboxFold at h
      rcases hr : bboxFold rest with _ | q
      · rw [hr] at h; simp at h
      · rw [hr] at h
        obtain ⟨l, u, r, b⟩ := q
        simp at h
    · intro h; simp at h

lemma bboxFold_bounds (xs : List (Nat × Nat)) :
    ∀ l u r b, bboxFold xs = some (l, u, r, b) →
      ∀ p ∈ xs, l ≤ p.1 ∧ p.1 ≤ r ∧ u ≤ p.2 ∧ p.2 ≤ b := by
  induction xs with
  | nil => intro l u r b h; simp [bboxFold] at h
  | cons q rest ih =>
    obtain ⟨x, y⟩ := q
    intro l u r b h p hp
    unfold bboxFold at h
    rcases hr : bboxFold rest with _ | q2
    · rw [hr] at h
      have hrest : rest = [] := (bboxFold_eq_none_iff rest).mp hr
      subst hrest
      simp at hp h
      obtain ⟨h1, h2, h3, h4⟩ := h
      subst h1; subst h2; subst h3; subst h4
      simp [hp]
    · rw [hr] at h
      obtain ⟨l2, u2, r2, b2⟩ := q2
      simp at h
      obtain ⟨h1, h2, h3, h4⟩ := h
      subst h1; subst h2; subst h3; subst h4
      rcases List.mem_cons.mp hp with hph | hpt
      · subst hph
        exact ⟨Nat.min_le_left _ _, Nat.le_max_left _ _,
          Nat.min_le_left _ _, Nat.le_max_left _ _⟩
      · obtain ⟨k1, k2, k3, k4⟩ := ih l2 u2 r2 b2 hr p hpt
        exact ⟨le_trans (Nat.min_le_right _ _) k1, le_trans k2 (Nat.le_max_right _ _),
          le_trans (Nat.min_le_right _ _) k3, le_trans k4 (Nat.le_max_right _ _)⟩

lemma bboxFold_attained (xs : List (Nat × Nat)) :
    ∀ l u r b, bboxFold xs = some (l, u, r, b) →
      (∃ p ∈ xs, p.1 = l) ∧ (∃ p ∈ xs, p.1 = r) ∧
      (∃ p ∈ xs, p.2 = u) ∧ (∃ p ∈ xs, p.2 = b) := by
  induction xs with
  | nil => intro l u r b h; simp [bboxFold] at h
  | cons q rest ih =>
    obtain ⟨x, y⟩ := q
    intro l u r b h
    unfold bboxFold at h
    rcases hr : bboxFold rest with _ | q2
    · rw [hr] at h
      simp at h
      obtain ⟨h1, h2, h3, h4⟩ := h
      subst h1; subst h2; subst h3; subst h4
      exact ⟨⟨(x, y), by simp⟩, ⟨(x, y), by simp⟩, ⟨(x, y), by simp⟩, ⟨(x, y), by simp⟩⟩
    · rw [hr] at h
      obtain ⟨l2, u2, r2, b2⟩ := q2
      simp at h
      obtain ⟨h1, h2, h3, h4⟩ := h
      subst h1; subst h2; subst h3; subst h4
      obtain ⟨⟨pl, hpl, hpl2⟩, ⟨pr, hpr, hpr2⟩, ⟨pu, hpu, hpu2⟩, ⟨pb, hpb, hpb2⟩⟩ :=
        ih l2 u2 r2 b2 hr
      refine ⟨?_, ?_, ?_, ?_⟩
      · rcases Nat.le_total x l2 with hc | hc
        · exact ⟨(x, y), by simp, by simp [Nat.min_eq_left hc]⟩
        · exact ⟨pl, by simp [hpl], by simp [hpl2, Nat.min_eq_right hc]⟩
      · rcases Nat.le_total x r2 with hc | hc
        · exact ⟨pr, by simp [hpr], by simp [hpr2, Nat.max_eq_right hc]⟩
        · exact ⟨(x, y), by simp, by simp [Nat.max_eq_left hc]⟩
      · rcases Nat.le_total y u2 with hc | hc
        · exact ⟨(x, y), by simp, by simp [Nat.min_eq_left hc]⟩
        · exact ⟨pu, by simp [hpu], by simp [hpu2, Nat.min_eq_right hc]⟩
      · rcases Nat.le_total y b2 with hc | hc
        · exact ⟨pb, by simp [hpb], by simp [hpb2, Nat.max_eq_right hc]⟩
        · exact ⟨(x, y), by simp, by simp [Nat.max_eq_left hc]⟩

lemma mem_nzCoords (img : Img) (x y : Nat) :
    (x, y) ∈ nzCoords img ↔
      x < img.width ∧ y < img.height ∧ alphaAt img x y ≠ 0 := by
  simp [nzCoords, List.mem_filter, List.mem_flatMap, List.mem_range, List.mem_map]
  tauto

/-- **C2** The Content Autocropper: with at least one non-zero-alpha
pixel, the result is the crop of the minimal rectangle containing all
non-zero-alpha pixels, expanded by the margin and clamped to the image
bounds; a fully transparent image yields exactly the 100×100 crop from
the origin. -/
theorem autocrop_minimal_box (img : Img) (margin : Nat)
    (hmode : img.mode = Mode.RGBA) :
    ((∃ x y, x < img.width ∧ y < img.height ∧ alphaAt img x y ≠ 0) →
      ∃ l u r b, IsMinBBox img l u r b ∧
        autocrop_image img margin =
          crop img (l - margin) (u - margin) (min img.width (r + margin))
            (min img.height (b + margin))) ∧
    ((∀ x y, x < img.width → y < img.height → alphaAt img x y = 0) →
      autocrop_image img margin = crop img 0 0 100 100 ∧
      (autocrop_image img margin).width = 100 ∧
      (autocrop_image img margin).height = 100) := by
  have hid : toRGBA img = img := toRGBA_of_rgba hmode
  constructor
  · rintro ⟨x, y, hx, hy, ha⟩
    have hmem : (x, y) ∈ nzCoords img := (mem_nzCoords img x y).mpr ⟨hx, hy, ha⟩
    rcases hfold : bboxFold (nzCoords img) with _ | q
    · exact absurd ((bboxFold_eq_none_iff _).mp hfold) (by
        intro hnil; rw [hnil] at hmem; simp at hmem)
    · obtain ⟨l, u, rm, bm⟩ := q
      have hbounds := bboxFold_bounds _ l u rm bm hfold
      have hatt := bboxFold_attained _ l u rm bm hfold
      refine ⟨l, u, rm + 1, bm + 1, ⟨?_, ?_, ?_, ?_, ?_⟩, ?_⟩
      · intro x2 y2 hx2 hy2 ha2
        have := hbounds (x2, y2) ((mem_nzCoords img x2 y2).mpr ⟨hx2, hy2, ha2⟩)
        omega
      · obtain ⟨p, hp, hpe⟩ := hatt.1
        obtain ⟨hw, hh, hnz⟩ := (mem_nzCoords img p.1 p.2).mp hp
        exact ⟨p.2, by omega, hh, by rw [← hpe]; exact hnz⟩
      · obtain ⟨p, hp, hpe⟩ := hatt.2.1
        obtain ⟨hw, hh, hnz⟩ := (mem_nzCoords img p.1 p.2).mp hp
        refine ⟨p.2, by omega, hh, ?_⟩
        have : rm + 1 - 1 = p.1 := by omega
        rw [this]; exact hnz
      · obtain ⟨p, hp, hpe⟩ := hatt.2.2.1
        obtain ⟨hw, hh, hnz⟩ := (mem_nzCoords img p.1 p.2).mp hp
        exact ⟨p.1, hw, by omega, by rw [← hpe]; exact hnz⟩
      · obtain ⟨p, hp, hpe⟩ := hatt.2.2.2
        obtain ⟨hw, hh, hnz⟩ := (mem_nzCoords img p.1 p.2).mp hp
        refine ⟨p.1, hw, by omega, ?_⟩
        have : bm + 1 - 1 = p.2 := by omega
        rw [this]; exact hnz
      · have hget : getbbox img = some (l, u, rm + 1, bm + 1) := by
          simp [getbbox, hfold]
        simp only [autocrop_image, hid, hget]
  · intro hall
    have hnil : nzCoords img = [] := by
      apply List.filter_eq_nil.mpr
      intro p hp
      simp [List.mem_flatMap, List.mem_range, List.mem_map] at hp
      obtain ⟨x2, hx2, y2, hy2, hpe⟩ := hp
      subst hpe
      simp [hall x2 y2 hx2 hy2]
    have hget : getbbox img = none := by
      simp [getbbox, hnil, bboxFold]
    have heq : autocrop_image img margin = crop img 0 0 100 100 := by
      simp only [autocrop_image, hid, hget]
    exact ⟨heq, by rw [heq]; rfl, by rw [heq]; rfl⟩

/-- Witness for C2: a 3×2 image with one opaque pixel, margin 1, and the
fully transparent fallback. -/
theorem autocrop_minimal_box_witness :
    (∃ l u r b, IsMinBBox imgOnePixel l u r b ∧
      autocrop_image imgOnePixel 1 =
        crop imgOnePixel (l - 1) (u - 1) (min imgOnePixel.width (r + 1))
          (min imgOnePixel.height (b + 1))) ∧
    autocrop_image imgTransparent 1 = crop imgTransparent 0 0 100 100 := by
  constructor
  · exact (autocrop_minimal_box imgOnePixel 1 rfl).1 ⟨1, 0, by decide, by decide, by decide⟩
  · refine ((autocrop_minimal_box imgTransparent 1 rfl).2 ?_).1
    intro x y hx hy
    have hx3 : x < 3 := hx
    have hy2 : y < 2 := hy
    interval_cases x <;> interval_cases y <;> decide

lemma drawRectAux_get? (w : Nat) (x0 y0 x1 y1 : Int) (l : List Pixel) :
    ∀ s j : Nat,
      (drawRectAux w x0 y0 x1 y1 s l).get? j =
        (l.get? j).map fun p =>
          if x0 ≤ (Int.ofNat ((s + j) % w)) ∧ (Int.ofNat ((s + j) % w)) ≤ x1 ∧
             y0 ≤ (Int.ofNat ((s + j) / w)) ∧ (Int.ofNat ((s + j) / w)) ≤ y1 then
            (⟨255, 255, 255, 0⟩ : Pixel)
          else p := by
  induction l with
  | nil => intro s j; simp [drawRectAux]
  | cons p rest ih =>
    intro s j
    cases j with
    | zero => simp [drawRectAux]
    | succ j' =>
      have harith : s + (j' + 1) = (s + 1) + j' := by omega
      simp only [drawRectAux, List.get?_cons_succ, ih (s + 1) j', harith]

/-- **C3 (amended)** For every RGBA image, fractional bounding box and
margin, the clamped rectangle `(x, y, width, height)` computed by the
Title Eraser satisfies `0 ≤ x`, `0 ≤ y`, `x + width ≤ image width`,
`y + height ≤ image height`, and the fill only changes pixels `(i, j)`
with `x ≤ i ≤ x + width` and `y ≤ j ≤ y + height` (PIL's rectangle
endpoints are inclusive, so a zero-area clamped rectangle can still
change one row or column of pixels). -/
lemma remove_title_some_eq (img : Img) (bb : BBoxQ) (margin : Int)
    (hmode : img.mode = Mode.RGBA) :
    remove_title_from_image img (some bb) margin =
      drawRect img (titleRect img bb margin).1 (titleRect img bb margin).2.1
        ((titleRect img bb margin).1 + (titleRect img bb margin).2.2.1)
        ((titleRect img bb margin).2.1 + (titleRect img bb margin).2.2.2) := by
  simp [remove_title_from_image, toRGBA_of_rgba hmode]

theorem title_eraser_clamped (img : Img) (bb : BBoxQ) (margin : Int)
    (x y w h : Int) (hrect : titleRect img bb margin = (x, y, w, h))
    (hmode : img.mode = Mode.RGBA) :
    0 ≤ x ∧ 0 ≤ y ∧ x + w ≤ (img.width : Int) ∧ y + h ≤ (img.height : Int) ∧
    ∀ i j : Nat, i < img.width → j < img.height →
      pxAt (remove_title_from_image img (some bb) margin) i j ≠ pxAt img i j →
      x ≤ (i : Int) ∧ (i : Int) ≤ x + w ∧ y ≤ (j : Int) ∧ (j : Int) ≤ y + h := by
  have hpx := remove_title_some_eq img bb margin hmode
  rw [hrect] at hpx
  have h2 := hrect
  simp only [titleRect, Prod.mk.injEq] at h2
  obtain ⟨hx2, hy2, hw2, hh2⟩ := h2
  refine ⟨?_, ?_, ?_, ?_, ?_⟩
  · omega
  · omega
  · omega
  · omega
  · intro i j hi hj hne
    have hpx2 : remove_title_from_image img (some bb) margin =
        drawRect img x y (x + w) (y + h) := by simpa using hpx
    rw [hpx2] at hne
    have hW : 0 < img.width := lt_of_le_of_lt (Nat.zero_le i) hi
    have hidx : ∀ p : Pixel,
        pxAt (drawRect img x y (x + w) (y + h)) i j =
          ((img.data.get? (j * img.width + i)).map fun p2 =>
            if x ≤ (Int.ofNat ((0 + (j * img.width + i)) % img.width)) ∧
               (Int.ofNat ((0 + (j * img.width + i)) % img.width)) ≤ x + w ∧
               y ≤ (Int.ofNat ((0 + (j * img.width + i)) / img.width)) ∧
               (Int.ofNat ((0 + (j * img.width + i)) / img.width)) ≤ y + h then
              (⟨255, 255, 255, 0⟩ : Pixel)
            else p2).getD ⟨0, 0, 0, 0⟩ := by
      intro p
      show ((drawRectAux img.width x y (x + w) (y + h) 0 img.data).get?
        (j * img.width + i)).getD ⟨0, 0, 0, 0⟩ = _
      rw [drawRectAux_get? img.width x y (x + w) (y + h) img.data 0
        (j * img.width + i)]
    have hmod : (0 + (j * img.width + i)) % img.width = i := by
      rw [Nat.zero_add, Nat.mul_comm j img.width, Nat.mul_add_mod,
        Nat.mod_eq_of_lt hi]
    have hdiv : (0 + (j * img.width + i)) / img.width = j := by
      rw [Nat.zero_add, Nat.mul_comm j img.width, Nat.mul_add_div hW,
        Nat.div_eq_of_lt hi, Nat.add_zero]
    rw [hidx ⟨0, 0, 0, 0⟩, hmod, hdiv] at hne
    have hpx3 : pxAt img i j = (img.data.get? (j * img.width + i)).getD ⟨0, 0, 0, 0⟩ :=
      rfl
    rw [hpx3] at hne
    rcases hget : img.data.get? (j * img.width + i) with _ | p
    · rw [hget] at hne
      simp at hne
    · rw [hget] at hne
      simp only [Option.map_some', Option.getD_some] at hne
      by_cases hcond : x ≤ (Int.ofNat i) ∧ (Int.ofNat i) ≤ x + w ∧
          y ≤ (Int.ofNat j) ∧ (Int.ofNat j) ≤ y + h
      · exact hcond
      · rw [if_neg hcond] at hne
        exact absurd rfl hne

/-- Counterexample to C3 as stated: on a fully opaque 2×2 image with the
zero-size box at the origin and margin 0, the clamped rectangle has zero
width and height, yet the fill still turns pixel `(0, 0)` into
transparent white, because `ImageDraw.rectangle` includes both corner
pixels. -/
theorem title_eraser_zero_area_not_noop :
    titleRect imgOpaque bbZero 0 = (0, 0, 0, 0) ∧
    pxAt (remove_title_from_image imgOpaque (some bbZero) 0) 0 0 =
      ⟨255, 255, 255, 0⟩ ∧
    pxAt imgOpaque 0 0 = ⟨0, 0, 0, 255⟩ ∧
    remove_title_from_image imgOpaque (some bbZero) 0 ≠ imgOpaque := by
  have ht : titleRect imgOpaque bbZero 0 = (0, 0, 0, 0) := by
    norm_num [titleRect, pyTrunc, bbZero, imgOpaque]
  have he : remove_title_from_image imgOpaque (some bbZero) 0 =
      drawRect imgOpaque 0 0 0 0 := by
    rw [remove_title_some_eq imgOpaque bbZero 0 rfl, ht]
    norm_num
  refine ⟨ht, ?_, by decide, ?_⟩
  · rw [he]; decide
  · rw [he]; decide

/-- Witness for the amended C3 at a concrete oversized box: the clamped
rectangle of a box reaching past the right edge still satisfies the
bounds. -/
theorem title_eraser_clamped_witness :
    titleRect imgOpaque ((1 : ℚ) / 2, 0, 2, 2) 1 = (0, 0, 2, 2) ∧
    (0 : Int) + 2 ≤ (imgOpaque.width : Int) ∧
    (0 : Int) + 2 ≤ (imgOpaque.height : Int) := by
  have ht : titleRect imgOpaque ((1 : ℚ) / 2, 0, 2, 2) 1 = (0, 0, 2, 2) := by
    norm_num [titleRect, pyTrunc, imgOpaque]
  have h := title_eraser_clamped imgOpaque ((1 : ℚ) / 2, 0, 2, 2) 1 0 0 2 2 ht rfl
  exact ⟨ht, h.2.2.1, h.2.2.2.1⟩

lemma pptx_flow_ok (env : Env) (hmk : env.makedirs = Except.ok ())
    (hls : ∃ fs, env.listdir = Except.ok fs) : pptx_flow env = Except.ok () := by
  unfold pptx_flow
  obtain ⟨fs, hfs⟩ := hls
  by_cases hp : env.pathExists
  · simp only [hp, Bool.not_true, Bool.false_eq_true, if_false, hmk, hfs]
    rcases h2 : (match env.loadAndExtract with
      | Except.error e => Except.error e
      | Except.ok _ =>
        if env.hasLibreoffice then use_libreoffice_flow env
        else Except.ok ()) with _ | e <;> simp [h2]
  · simp [hp]

/-- **C7 (amended)** With no source path the program prints usage and
exits non-zero.  With a source path supplied, provided the option values
parse (`int()` does not raise) and the pre-`try` directory calls
`os.makedirs`/`os.listdir` succeed, every other failure of the run is
caught, printed and swallowed, and the process exits with status 0. -/
theorem graceful_error_handling (argv : List String) (env : Env) :
    (argv.length < 2 →
      image_extractor_main argv env = MainOutcome.usageExit ∧
      exitCode (image_extractor_main argv env) = 1) ∧
    (2 ≤ argv.length →
      (∃ o, parseOptLoop (argv.drop 3) defaultCliOpts = Except.ok o) →
      env.makedirs = Except.ok () →
      (∃ fs, env.listdir = Except.ok fs) →
      exitCode (image_extractor_main argv env) = 0) := by
  constructor
  · intro hlen
    constructor <;> simp [image_extractor_main, hlen, exitCode]
  · intro hlen hparse hmk hls
    obtain ⟨o, ho⟩ := hparse
    have hflow := pptx_flow_ok env hmk hls
    simp [image_extractor_main, Nat.not_lt_of_le hlen, ho, hflow, exitCode]

/-- Counterexample to C7 as stated: with a source path supplied but the
output directory uncreatable (`os.makedirs` raises, e.g. the path exists
as a regular file), the exception propagates — `os.makedirs` runs before
the `try` block — and the process exits with status 1, not 0. -/
theorem error_swallowed_counterexample :
    2 ≤ (["image_extractor.py", "deck.pptx"] : List String).length ∧
    image_extractor_main ["image_extractor.py", "deck.pptx"] envBadMakedirs =
      MainOutcome.crashed Exc.osError ∧
    exitCode (image_extractor_main ["image_extractor.py", "deck.pptx"]
      envBadMakedirs) = 1 := by
  refine ⟨by decide, by decide, by decide⟩

/-- Witness for the amended C7: a benign run exits 0 and a bare
invocation prints usage. -/
theorem graceful_error_handling_witness :
    exitCode (image_extractor_main ["image_extractor.py", "deck.pptx"] envBenign)
      = 0 ∧
    image_extractor_main ["image_extractor.py"] envBenign =
      MainOutcome.usageExit :=
  ⟨(graceful_error_handling ["image_extractor.py", "deck.pptx"] envBenign).2
      (by decide) ⟨defaultCliOpts, rfl⟩ rfl ⟨[], rfl⟩,
   ((graceful_error_handling ["image_extractor.py"] envBenign).1 (by decide)).1⟩

lemma joinSpaceL_cons (w : List Char) (ws : List (List Char)) (h : ws ≠ []) :
    joinSpaceL (w :: ws) = w ++ ' ' :: joinSpaceL ws := by
  cases ws with
  | nil => exact absurd rfl h
  | cons a l => rfl

lemma wordsL_cons_eq (c : Char) (cs : List Char) :
    wordsL (c :: cs) =
      if isWs c then wordsL cs
      else match cs with
        | [] => [[c]]
        | d :: _ =>
          if isWs d then [c] :: wordsL cs
          else match wordsL cs with
            | [] => [[c]]
            | w :: ws => (c :: w) :: ws := rfl

lemma wordsL_ws_cons (c : Char) (l : List Char) (h : isWs c = true) :
    wordsL (c :: l) = wordsL l := by
  rw [wordsL_cons_eq, if_pos h]

lemma wordsL_singleton (c : Char) (hc : isWs c = false) : wordsL [c] = [[c]] := by
  rw [wordsL_cons_eq, if_neg (by simp [hc])]

lemma wordsL_break (c d : Char) (cs2 : List Char) (hc : isWs c = false)
    (hd : isWs d = true) :
    wordsL (c :: d :: cs2) = [c] :: wordsL (d :: cs2) := by
  rw [wordsL_cons_eq, if_neg (by simp [hc])]
  simp only [hd, if_true]

lemma wordsL_glue (c d : Char) (cs2 : List Char) (hc : isWs c = false)
    (hd : isWs d = false) :
    wordsL (c :: d :: cs2) =
      match wordsL (d :: cs2) with
      | [] => [[c]]
      | w :: ws => (c :: w) :: ws := by
  rw [wordsL_cons_eq, if_neg (by simp [hc])]
  simp only [hd, Bool.false_eq_true, if_false]

lemma wordsL_good (l : List Char) : GoodWords (wordsL l) := by
  induction l with
  | nil => intro w hw; simp [wordsL] at hw
  | cons c cs ih =>
    by_cases hc : isWs c = true
    · rw [wordsL_ws_cons c cs hc]; exact ih
    · rw [Bool.not_eq_true] at hc
      cases cs with
      | nil =>
        intro w hw
        rw [wordsL_singleton c hc] at hw
        simp at hw
        subst hw
        exact ⟨by simp, by simpa using hc⟩
      | cons d cs2 =>
        by_cases hd : isWs d = true
        · intro w hw
          rw [wordsL_break c d cs2 hc hd] at hw
          rcases List.mem_cons.mp hw with h1 | h2
          · subst h1; exact ⟨by simp, by simpa using hc⟩
          · exact ih w h2
        · rw [Bool.not_eq_true] at hd
          rcases hr : wordsL (d :: cs2) with _ | ⟨w1, ws1⟩
          · intro w hw
            rw [wordsL_glue c d cs2 hc hd, hr] at hw
            simp at hw
            subst hw
            exact ⟨by simp, by simpa using hc⟩
          · intro w hw
            rw [wordsL_glue c d cs2 hc hd, hr] at hw
            have hih := ih
            rw [hr] at hih
            rcases List.mem_cons.mp hw with h1 | h2
            · subst h1
              obtain ⟨_, hw1c⟩ := hih w1 (by simp)
              refine ⟨by simp, ?_⟩
              intro c2 hc2
              rcases List.mem_cons.mp hc2 with h3 | h4
              · subst h3; exact hc
              · exact hw1c c2 h4
            · exact hih w (by simp [h2])

lemma wordsL_chars (l : List Char) :
    ∀ w ∈ wordsL l, ∀ c ∈ w, c ∈ l := by
  induction l with
  | nil => intro w hw; simp [wordsL] at hw
  | cons c cs ih =>
    by_cases hc : isWs c = true
    · rw [wordsL_ws_cons c cs hc]
      intro w hw c2 hc2
      exact List.mem_cons_of_mem c (ih w hw c2 hc2)
    · rw [Bool.not_eq_true] at hc
      cases cs with
      | nil =>
        intro w hw c2 hc2
        rw [wordsL_singleton c hc] at hw
        simp at hw
        subst hw
        simpa using hc2
      | cons d cs2 =>
        by_cases hd : isWs d = true
        · intro w hw c2 hc2
          rw [wordsL_break c d cs2 hc hd] at hw
          rcases List.mem_cons.mp hw with h1 | h2
          · subst h1; simp at hc2; subst hc2; simp
          · exact List.mem_cons_of_mem c (ih w h2 c2 hc2)
        · rw [Bool.not_eq_true] at hd
          rcases hr : wordsL (d :: cs2) with _ | ⟨w1, ws1⟩
          · intro w hw c2 hc2
            rw [wordsL_glue c d cs2 hc hd, hr] at hw
            simp at hw
            subst hw
            simp at hc2; subst hc2; simp
          · intro w hw c2 hc2
            have hih := ih
            rw [hr] at hih
            rw [wordsL_glue c d cs2 hc hd, hr] at hw
            rcases List.mem_cons.mp hw with h1 | h2
            · subst h1
              rcases List.mem_cons.mp hc2 with h3 | h4
              · subst h3; simp
              · exact List.mem_cons_of_mem c (hih w1 (by simp) c2 h4)
            · exact List.mem_cons_of_mem c (hih w (by simp [h2]) c2 hc2)

lemma wordsL_word_append (w r : List Char) (hne : w ≠ [])
    (hw : ∀ c ∈ w, isWs c = false)
    (hr : r = [] ∨ ∃ d rs, r = d :: rs ∧ isWs d = true) :
    wordsL (w ++ r) = w :: wordsL r := by
  induction w with
  | nil => exact absurd rfl hne
  | cons a w2 ih =>
    have ha : isWs a = false := hw a (by simp)
    cases w2 with
    | nil =>
      rcases hr with hnil | ⟨d, rs, hcons, hd⟩
      · subst hnil
        simp only [List.append_nil]
        rw [wordsL_singleton a ha]
        rfl
      · subst hcons
        simp only [List.cons_append, List.nil_append]
        rw [wordsL_break a d rs ha hd]
    | cons b w3 =>
      have hb : isWs b = false := hw b (by simp)
      have hih : wordsL ((b :: w3) ++ r) = (b :: w3) :: wordsL r :=
        ih (by simp) (fun c hc => hw c (by simp [List.mem_cons.mp hc]))
      simp only [List.cons_append] at hih ⊢
      rw [wordsL_glue a b (w3 ++ r) ha hb, hih]

lemma wordsL_joinSpaceL (ws : List (List Char)) (hg : GoodWords ws) :
    wordsL (joinSpaceL ws) = ws := by
  induction ws with
  | nil => rfl
  | cons w ws2 ih =>
    obtain ⟨hne, hnw⟩ := hg w (by simp)
    have hg2 : GoodWords ws2 := fun w2 h2 => hg w2 (by simp [h2])
    cases ws2 with
    | nil =>
      show wordsL (joinSpaceL [w]) = [w]
      have : joinSpaceL [w] = w ++ [] := by simp [joinSpaceL]
      rw [this, wordsL_word_append w [] hne hnw (Or.inl rfl)]
      rfl
    | cons w2 ws3 =>
      rw [joinSpaceL_cons w _ (by simp)]
      rw [wordsL_word_append w (' ' :: joinSpaceL (w2 :: ws3)) hne hnw
        (Or.inr ⟨' ', joinSpaceL (w2 :: ws3), rfl, by decide⟩)]
      rw [wordsL_ws_cons ' ' _ (by decide)]
      rw [ih hg2]

lemma mem_of_head? {l : List Char} {c : Char} (h : l.head? = some c) : c ∈ l := by
  cases l with
  | nil => simp at h
  | cons a t =>
    simp at h
    subst h
    simp

lemma mem_of_getLast? {l : List Char} {c : Char} (h : l.getLast? = some c) : c ∈ l := by
  have h2 : l.reverse.head? = some c := by rwa [List.head?_reverse]
  exact List.mem_reverse.mp (mem_of_head? h2)

lemma dropWhile_eq_self_of_head (l : List Char)
    (h : ∀ c, l.head? = some c → isWs c = false) : l.dropWhile isWs = l := by
  cases l with
  | nil => rfl
  | cons a t =>
    have := h a rfl
    simp [List.dropWhile, this]

lemma trimWsL_eq_self (l : List Char)
    (h1 : ∀ c, l.head? = some c → isWs c = false)
    (h2 : ∀ c, l.getLast? = some c → isWs c = false) : trimWsL l = l := by
  unfold trimWsL
  rw [dropWhile_eq_self_of_head l h1]
  rw [dropWhile_eq_self_of_head l.reverse
    (fun c hc => h2 c (by rwa [List.head?_reverse] at hc))]
  exact List.reverse_reverse l

lemma trimWsL_all_nonws (l : List Char) (h : ∀ c ∈ l, isWs c = false) :
    trimWsL l = l :=
  trimWsL_eq_self l (fun c hc => h c (mem_of_head? hc))
    (fun c hc => h c (mem_of_getLast? hc))

lemma trimWsL_length_le (l : List Char) : (trimWsL l).length ≤ l.length := by
  unfold trimWsL
  calc ((l.dropWhile isWs).reverse.dropWhile isWs).reverse.length
      = ((l.dropWhile isWs).reverse.dropWhile isWs).length := List.length_reverse _
    _ ≤ (l.dropWhile isWs).reverse.length := (List.dropWhile_sublist isWs).length_le
    _ = (l.dropWhile isWs).length := List.length_reverse _
    _ ≤ l.length := (List.dropWhile_sublist isWs).length_le

lemma trimWsL_subset (l : List Char) : ∀ c ∈ trimWsL l, c ∈ l := by
  intro c hc
  unfold trimWsL at hc
  have h1 := List.mem_reverse.mp hc
  have h2 := List.dropWhile_subset isWs h1
  have h3 := List.mem_reverse.mp h2
  exact List.dropWhile_subset isWs h3

lemma mem_joinSpaceL (ws : List (List Char)) (c : Char) (h : c ∈ joinSpaceL ws) :
    c = ' ' ∨ ∃ w ∈ ws, c ∈ w := by
  induction ws with
  | nil => simp [joinSpaceL] at h
  | cons w ws2 ih =>
    cases ws2 with
    | nil => exact Or.inr ⟨w, by simp, by simpa [joinSpaceL] using h⟩
    | cons w2 ws3 =>
      rw [joinSpaceL_cons w _ (by simp)] at h
      rcases List.mem_append.mp h with h1 | h2
      · exact Or.inr ⟨w, by simp, h1⟩
      · rcases List.mem_cons.mp h2 with h3 | h4
        · exact Or.inl h3
        · rcases ih h4 with h5 | ⟨w3, hw3, hc3⟩
          · exact Or.inl h5
          · exact Or.inr ⟨w3, by simp [hw3], hc3⟩

lemma joinSpaceL_ne_nil (ws : List (List Char)) (hg : GoodWords ws)
    (h : ws ≠ []) : joinSpaceL ws ≠ [] := by
  cases ws with
  | nil => exact absurd rfl h
  | cons w ws2 =>
    obtain ⟨hne, _⟩ := hg w (by simp)
    cases ws2 with
    | nil => simpa [joinSpaceL] using hne
    | cons w2 ws3 =>
      rw [joinSpaceL_cons w _ (by simp)]
      simp [hne]

lemma joinSpaceL_head (ws : List (List Char)) (hg : GoodWords ws) :
    ∀ c, (joinSpaceL ws).head? = some c → isWs c = false := by
  intro c hc
  cases ws with
  | nil => simp [joinSpaceL] at hc
  | cons w ws2 =>
    obtain ⟨hne, hnw⟩ := hg w (by simp)
    cases ws2 with
    | nil =>
      exact hnw c (mem_of_head? (by simpa [joinSpaceL] using hc))
    | cons w2 ws3 =>
      rw [joinSpaceL_cons w _ (by simp)] at hc
      cases w with
      | nil => exact absurd rfl hne
      | cons a t =>
        simp at hc
        subst hc
        exact hnw a (by simp)

lemma joinSpaceL_last (ws : List (List Char)) (hg : GoodWords ws) :
    ∀ c, (joinSpaceL ws).getLast? = some c → isWs c = false := by
  induction ws with
  | nil => intro c hc; simp [joinSpaceL] at hc
  | cons w ws2 ih =>
    intro c hc
    obtain ⟨hne, hnw⟩ := hg w (by simp)
    have hg2 : GoodWords ws2 := fun w2 h2 => hg w2 (by simp [h2])
    cases ws2 with
    | nil =>
      exact hnw c (mem_of_getLast? (by simpa [joinSpaceL] using hc))
    | cons w2 ws3 =>
      rw [joinSpaceL_cons w _ (by simp)] at hc
      have hj : joinSpaceL (w2 :: ws3) ≠ [] :=
        joinSpaceL_ne_nil _ hg2 (by simp)
      rw [List.getLast?_append_of_ne_nil w (by simp)] at hc
      rcases hj2 : joinSpaceL (w2 :: ws3) with _ | ⟨a, j2⟩
      · exact absurd hj2 hj
      · rw [hj2, List.getLast?_cons_cons] at hc
        exact ih hg2 c (by rw [hj2]; exact hc)

lemma dropWhile_append_of_ne_nil (l r : List Char)
    (h : l.dropWhile isWs ≠ []) :
    (l ++ r).dropWhile isWs = l.dropWhile isWs ++ r := by
  induction l with
  | nil => exact absurd rfl h
  | cons a t ih =>
    by_cases ha : isWs a = true
    · have hh : (a :: t).dropWhile isWs = t.dropWhile isWs := by
        simp [List.dropWhile, ha]
      rw [hh] at h
      simp only [List.cons_append, List.dropWhile, ha, hh]
      exact ih h
    · rw [Bool.not_eq_true] at ha
      simp [List.dropWhile, ha]

lemma trim_word_prefix (w : List Char) (hw : ∀ c ∈ w, isWs c = false) (n : Nat) :
    ∃ ws2, GoodWords ws2 ∧ trimWsL (w.take n) = joinSpaceL ws2 := by
  by_cases hp : w.take n = []
  · exact ⟨[], by intro w2 h2; simp at h2, by rw [hp]; rfl⟩
  · refine ⟨[w.take n], ?_, ?_⟩
    · intro w2 h2
      simp at h2
      subst h2
      exact ⟨hp, fun c hc => hw c (List.take_subset n w hc)⟩
    · rw [trimWsL_all_nonws _ (fun c hc => hw c (List.take_subset n w hc))]
      rfl

lemma trim_append_space (w : List Char) (hg : GoodWord w) :
    trimWsL (w ++ [' ']) = w := by
  obtain ⟨hne, hnw⟩ := hg
  unfold trimWsL
  rw [dropWhile_eq_self_of_head (w ++ [' ']) ?hhead]
  case hhead =>
    intro c hc
    cases w with
    | nil => exact absurd rfl hne
    | cons a t =>
      simp at hc
      subst hc
      exact hnw a (by simp)
  rw [List.reverse_append]
  simp only [List.reverse_singleton, List.singleton_append]
  have hws : isWs ' ' = true := by decide
  rw [show (' ' :: w.reverse).dropWhile isWs = w.reverse.dropWhile isWs from by
    simp [List.dropWhile, hws]]
  rw [dropWhile_eq_self_of_head w.reverse
    (fun c hc => hnw c (List.mem_reverse.mp (mem_of_head? hc)))]
  exact List.reverse_reverse w

lemma trim_append_word (w q : List Char) (hg : GoodWord w)
    (hqh : ∀ c, q.head? = some c → isWs c = false) (hqne : q ≠ []) :
    trimWsL (w ++ ' ' :: q) = w ++ ' ' :: trimWsL q := by
  obtain ⟨hne, hnw⟩ := hg
  obtain ⟨a, q2, rfl⟩ : ∃ a q2, q = a :: q2 := by
    cases q with
    | nil => exact absurd rfl hqne
    | cons a q2 => exact ⟨a, q2, rfl⟩
  have hah : isWs a = false := hqh a rfl
  have hdq : (a :: q2).dropWhile isWs = a :: q2 := by
    simp [List.dropWhile, hah]
  have hdrev : (a :: q2).reverse.dropWhile isWs ≠ [] := by
    intro hcontra
    have := (List.dropWhile_eq_nil_iff).mp hcontra a (by simp)
    rw [hah] at this
    exact Bool.false_ne_true this
  unfold trimWsL
  rw [dropWhile_eq_self_of_head (w ++ ' ' :: a :: q2) ?hhead2]
  case hhead2 =>
    intro c hc
    cases w with
    | nil => exact absurd rfl hne
    | cons b t =>
      simp at hc
      subst hc
      exact hnw b (by simp)
  rw [hdq]
  have h1 : (w ++ ' ' :: a :: q2).reverse =
      (a :: q2).reverse ++ ' ' :: w.reverse := by
    rw [List.reverse_append, List.reverse_cons, List.append_assoc,
      List.singleton_append]
  rw [h1, dropWhile_append_of_ne_nil _ _ hdrev, List.reverse_append,
    List.reverse_cons, List.reverse_reverse, List.append_assoc,
    List.singleton_append]

lemma trim_take_joinSpace (ws : List (List Char)) :
    ∀ n : Nat, GoodWords ws →
      ∃ ws2, GoodWords ws2 ∧ trimWsL ((joinSpaceL ws).take n) = joinSpaceL ws2 := by
  induction ws with
  | nil =>
    intro n _
    exact ⟨[], by intro w h; simp at h, by simp [joinSpaceL, trimWsL]⟩
  | cons w ws2 ih =>
    intro n hg
    obtain ⟨hne, hnw⟩ := hg w (by simp)
    have hg2 : GoodWords ws2 := fun w2 h2 => hg w2 (by simp [h2])
    cases ws2 with
    | nil =>
      show ∃ ws3, GoodWords ws3 ∧ trimWsL ((joinSpaceL [w]).take n) = joinSpaceL ws3
      have : joinSpaceL [w] = w := rfl
      rw [this]
      exact trim_word_prefix w hnw n
    | cons w2 ws3 =>
      rw [joinSpaceL_cons w _ (by simp)]
      rw [List.take_append_eq_append_take]
      rcases hsplit : n - w.length with _ | m
      · have hlen : n ≤ w.length := by omega
        rw [List.take_zero, List.append_nil]
        exact trim_word_prefix w hnw n
      · have hlen : w.length < n := by omega
        rw [List.take_of_length_le (show w.length ≤ n by omega),
          List.take_succ_cons]
        set j := joinSpaceL (w2 :: ws3) with hj
        rcases hq : j.take m with _ | ⟨a, q2⟩
        · rw [trim_append_space w ⟨hne, hnw⟩]
          exact ⟨[w], by intro w4 h4; simp at h4; subst h4; exact ⟨hne, hnw⟩, rfl⟩
        · have hqh : ∀ c, (j.take m).head? = some c → isWs c = false := by
            intro c hc
            apply joinSpaceL_head (w2 :: ws3) hg2 c
            rcases hm : m with _ | m2
            · rw [hm] at hq; simp at hq
            · rcases hjj : j with _ | ⟨b, j2⟩
              · rw [hjj, hm] at hq; simp at hq
              · rw [hm, hjj, List.take_succ_cons] at hc
                simp at hc
                rw [← hj, hjj]
                simp [hc]
          rw [hq] at hqh
          rw [trim_append_word w (a :: q2) ⟨hne, hnw⟩ hqh (by simp)]
          obtain ⟨ws4, hg4, h4⟩ := ih m hg2
          rw [hq] at h4
          rw [h4]
          have ha : isWs a = false := hqh a rfl
          have hts : trimWsL (a :: q2) ≠ [] := by
            unfold trimWsL
            rw [show List.dropWhile isWs (a :: q2) = a :: q2 from by
              simp [List.dropWhile, ha]]
            intro hcontra
            rw [List.reverse_eq_nil_iff] at hcontra
            have hcc := (List.dropWhile_eq_nil_iff).mp hcontra a (by simp)
            rw [ha] at hcc
            exact Bool.false_ne_true hcc
          have hws4 : ws4 ≠ [] := by
            intro hc
            rw [hc] at h4
            exact hts (by rw [h4]; rfl)
          refine ⟨w :: ws4, ?_, (joinSpaceL_cons w ws4 hws4).symm⟩
          intro w5 h5
          rcases List.mem_cons.mp h5 with h6 | h7
          · subst h6; exact ⟨hne, hnw⟩
          · exact hg4 w5 h7

lemma sanitizeL_eq (l : List Char) :
    sanitizeL l =
      trimWsL (if 100 < (joinSpaceL (wordsL (removeInvalidL l))).length
        then (joinSpaceL (wordsL (removeInvalidL l))).take 100
        else joinSpaceL (wordsL (removeInvalidL l))) := rfl

lemma sanitizeL_structure (l : List Char) :
    ∃ ws2, GoodWords ws2 ∧ sanitizeL l = joinSpaceL ws2 := by
  rw [sanitizeL_eq]
  have hg0 := wordsL_good (removeInvalidL l)
  by_cases hlen : 100 < (joinSpaceL (wordsL (removeInvalidL l))).length
  · rw [if_pos hlen]
    exact trim_take_joinSpace (wordsL (removeInvalidL l)) 100 hg0
  · rw [if_neg hlen]
    obtain ⟨ws2, hg2, h2⟩ := trim_take_joinSpace (wordsL (removeInvalidL l))
      (joinSpaceL (wordsL (removeInvalidL l))).length hg0
    rw [List.take_length] at h2
    exact ⟨ws2, hg2, h2⟩

lemma sanitizeL_noInvalid (l : List Char) :
    ∀ c ∈ sanitizeL l, isInvalidChar c = false := by
  intro c hc
  rw [sanitizeL_eq] at hc
  have hc2 := trimWsL_subset _ c hc
  have hc3 : c ∈ joinSpaceL (wordsL (removeInvalidL l)) := by
    by_cases hlen : 100 < (joinSpaceL (wordsL (removeInvalidL l))).length
    · rw [if_pos hlen] at hc2
      exact List.take_subset 100 _ hc2
    · rwa [if_neg hlen] at hc2
  rcases mem_joinSpaceL _ c hc3 with h1 | ⟨w, hw, hcw⟩
  · subst h1; decide
  · have hc4 : c ∈ removeInvalidL l := wordsL_chars _ w hw c hcw
    unfold removeInvalidL at hc4
    have := List.of_mem_filter hc4
    simpa using this

lemma sanitizeL_length_le (l : List Char) : (sanitizeL l).length ≤ 100 := by
  rw [sanitizeL_eq]
  by_cases hlen : 100 < (joinSpaceL (wordsL (removeInvalidL l))).length
  · rw [if_pos hlen]
    calc (trimWsL ((joinSpaceL (wordsL (removeInvalidL l))).take 100)).length
        ≤ ((joinSpaceL (wordsL (removeInvalidL l))).take 100).length :=
          trimWsL_length_le _
      _ ≤ 100 := by simp
  · rw [if_neg hlen]
    calc (trimWsL (joinSpaceL (wordsL (removeInvalidL l)))).length
        ≤ (joinSpaceL (wordsL (removeInvalidL l))).length := trimWsL_length_le _
      _ ≤ 100 := by omega

lemma sanitizeL_fixpoint (u : List Char)
    (h1 : ∃ ws, GoodWords ws ∧ u = joinSpaceL ws)
    (h2 : ∀ c ∈ u, isInvalidChar c = false)
    (h3 : u.length ≤ 100) : sanitizeL u = u := by
  obtain ⟨ws, hg, rfl⟩ := h1
  rw [sanitizeL_eq]
  have hri : removeInvalidL (joinSpaceL ws) = joinSpaceL ws := by
    unfold removeInvalidL
    apply List.filter_eq_self.mpr
    intro c hc
    simp [h2 c hc]
  rw [hri, wordsL_joinSpaceL ws hg, if_neg (by omega)]
  exact trimWsL_eq_self _ (joinSpaceL_head ws hg) (joinSpaceL_last ws hg)

/-- **C6** The Filename Sanitizer is idempotent: for every input string,
sanitizing twice equals sanitizing once; in particular every value the
sanitizer produces (no invalid characters, single internal spaces,
trimmed, at most 100 characters) is a fixed point. -/
theorem sanitize_filename_idempotent (s : String) :
    sanitize_filename (sanitize_filename s) = sanitize_filename s :=
  calc sanitize_filename (sanitize_filename s)
      = ⟨sanitizeL (sanitizeL s.data)⟩ := rfl
    _ = ⟨sanitizeL s.data⟩ :=
        congrArg String.mk (sanitizeL_fixpoint (sanitizeL s.data)
          (sanitizeL_structure s.data) (sanitizeL_noInvalid s.data)
          (sanitizeL_length_le s.data))
    _ = sanitize_filename s := rfl

end ImageExtractor
